import Mathlib

/-!
Verification development for the volatility-breakout-screener repository.

The analytics engine (`src/lib/indicators.ts`, `src/lib/delta-client.ts`, the
alert engine in the page component, and the `trading-signals` based variant of
the indicator module) is shallowly embedded below.  JavaScript numbers are
idealised as exact rationals, but the IEEE special values that the code can
actually produce (NaN and the two infinities, which arise only from division
and from `Math.sqrt` of a negative) are modelled explicitly by the `JSNum`
type, so that the guards around division are checkable.  `Math.sqrt` is
modelled by `ratSqrt`, an exact-on-perfect-squares monotone rational
under-approximation of the real square root; the development relies only on
properties shared with the real square root (`ratSqrt 0 = 0`, nonnegativity,
and `ratSqrt q = 0 → q = 0` for `q ≥ 0`), and every concrete evaluation below
is arranged so that its outcome is the same for any such square root.
-/

set_option maxRecDepth 400000

/-- Rational addition, expressed through `Rat.divInt` so that concrete
values reduce inside the kernel; `qAdd_eq` below identifies it with `+`. -/
def qAdd (a b : ℚ) : ℚ := Rat.divInt (a.num * b.den + b.num * a.den) (a.den * b.den)

/-- Rational subtraction (kernel-reducible); equal to `-` by `qSub_eq`. -/
def qSub (a b : ℚ) : ℚ := Rat.divInt (a.num * b.den - b.num * a.den) (a.den * b.den)

/-- Rational multiplication (kernel-reducible); equal to `*` by `qMul_eq`. -/
def qMul (a b : ℚ) : ℚ := Rat.divInt (a.num * b.num) (a.den * b.den)

/-- Rational division (kernel-reducible); equal to `/` by `qDiv_eq`. -/
def qDiv (a b : ℚ) : ℚ := Rat.divInt (a.num * b.den) (a.den * b.num)

/-- Newton iteration for the integer square root, with explicit fuel so that
it is structural recursion. -/
def isqrtIter (n : ℕ) : ℕ → ℕ → ℕ
  | 0, guess => guess
  | fuel + 1, guess =>
    let next := (guess + n / guess) / 2
    if next < guess then isqrtIter n fuel next else guess

/-- Integer square root by Newton's method (same algorithm as `Nat.sqrt`,
written with fuel so concrete values reduce inside the kernel). -/
def isqrt (n : ℕ) : ℕ := if n ≤ 1 then n else isqrtIter n n (n / 2)

/-- A JavaScript number: a finite value (idealised as an exact rational),
`NaN`, `Infinity` or `-Infinity`. -/
inductive JSNum where
  | fin : ℚ → JSNum
  | nan : JSNum
  | inf : JSNum
  | ninf : JSNum
deriving DecidableEq, Repr

/-- JavaScript unary minus. -/
def jsNeg : JSNum → JSNum
  | .fin a => .fin (-a)
  | .nan => .nan
  | .inf => .ninf
  | .ninf => .inf

/-- JavaScript addition. -/
def jsAdd : JSNum → JSNum → JSNum
  | .fin a, .fin b => .fin (qAdd a b)
  | .nan, _ => .nan
  | _, .nan => .nan
  | .inf, .ninf => .nan
  | .ninf, .inf => .nan
  | .inf, _ => .inf
  | _, .inf => .inf
  | .ninf, _ => .ninf
  | _, .ninf => .ninf

/-- JavaScript subtraction (`a - b = a + (-b)`). -/
def jsSub (a b : JSNum) : JSNum := jsAdd a (jsNeg b)

/-- JavaScript multiplication. -/
def jsMul : JSNum → JSNum → JSNum
  | .fin a, .fin b => .fin (qMul a b)
  | .nan, _ => .nan
  | _, .nan => .nan
  | .inf, .inf => .inf
  | .inf, .ninf => .ninf
  | .ninf, .inf => .ninf
  | .ninf, .ninf => .inf
  | .inf, .fin b => if 0 < b then .inf else if b < 0 then .ninf else .nan
  | .fin a, .inf => if 0 < a then .inf else if a < 0 then .ninf else .nan
  | .ninf, .fin b => if 0 < b then .ninf else if b < 0 then .inf else .nan
  | .fin a, .ninf => if 0 < a then .ninf else if a < 0 then .inf else .nan

/-- JavaScript division.  Only division can introduce an infinity or a NaN
from finite operands: `x/0` is `±Infinity` by the sign of `x`, and `0/0` is
`NaN` (the `+0` convention; the code never produces a negative zero in a
denominator). -/
def jsDiv : JSNum → JSNum → JSNum
  | .nan, _ => .nan
  | _, .nan => .nan
  | .fin a, .fin b =>
      if b = 0 then (if a = 0 then .nan else if 0 < a then .inf else .ninf)
      else .fin (qDiv a b)
  | .fin _, .inf => .fin 0
  | .fin _, .ninf => .fin 0
  | .inf, .fin b => if 0 ≤ b then .inf else .ninf
  | .ninf, .fin b => if 0 ≤ b then .ninf else .inf
  | .inf, _ => .nan
  | .ninf, _ => .nan

/-- JavaScript `<` as a boolean: every comparison with NaN is false. -/
def jsLtB : JSNum → JSNum → Bool
  | .nan, _ => false
  | _, .nan => false
  | .fin a, .fin b => decide (a < b)
  | .fin _, .inf => true
  | .ninf, .fin _ => true
  | .ninf, .inf => true
  | _, _ => false

/-- JavaScript `<=` as a boolean: every comparison with NaN is false. -/
def jsLeB : JSNum → JSNum → Bool
  | .nan, _ => false
  | _, .nan => false
  | .ninf, _ => true
  | _, .ninf => false
  | .inf, .inf => true
  | .inf, .fin _ => false
  | .fin _, .inf => true
  | .fin a, .fin b => decide (a ≤ b)

/-- `Math.abs`. -/
def jsAbs : JSNum → JSNum
  | .fin a => .fin |a|
  | .nan => .nan
  | .inf => .inf
  | .ninf => .inf

/-- `Math.max` of two values (NaN-propagating, as in JavaScript). -/
def jsMax (a b : JSNum) : JSNum :=
  if a = .nan ∨ b = .nan then .nan else if jsLtB a b then b else a

/-- `array.reduce((a, b) => a + b, 0)`. -/
def jsSum (l : List JSNum) : JSNum := l.foldl jsAdd (.fin 0)

/-- Exact-on-perfect-squares rational under-approximation of the square root,
standing in for `Math.sqrt` on nonnegative arguments. -/
def ratSqrt (q : ℚ) : ℚ := qDiv ((isqrt (q.num.toNat * q.den) : ℕ) : ℚ) ((q.den : ℕ) : ℚ)

/-- `Math.sqrt` (NaN on negative arguments). -/
def jsSqrt : JSNum → JSNum
  | .fin a => if a < 0 then .nan else .fin (ratSqrt a)
  | .nan => .nan
  | .inf => .inf
  | .ninf => .nan

/-- `Math.round` (half-up, toward positive infinity). -/
def jsRoundHalf : JSNum → JSNum
  | .fin a => .fin ((⌊qAdd a (Rat.divInt 1 2)⌋ : ℤ) : ℚ)
  | .nan => .nan
  | .inf => .inf
  | .ninf => .ninf

/-- Is this JavaScript number an ordinary finite value? -/
def JSNum.isFinite : JSNum → Bool
  | .fin _ => true
  | _ => false

/-- One OHLCV candle (`Candle` in `src/lib/types.ts`).  Upstream parsing
produces finite numeric fields, so they are plain rationals. -/
structure Candle where
  time : ℤ
  «open» : ℚ
  high : ℚ
  low : ℚ
  close : ℚ
  volume : ℚ
deriving DecidableEq, Repr

/-- `SqueezeState` in `src/lib/types.ts` (`NA` is the string `'N/A'`). -/
inductive SqueezeState where
  | TIGHT_SQUEEZE | SQUEEZE | NORMAL | EXPANSION | NA
deriving DecidableEq, Repr

/-- The non-null values of `BreakoutSignal` in `src/lib/types.ts`; the
nullable signal itself is `Option Signal`. -/
inductive Signal where
  | BULLISH_BREAKOUT | BEARISH_BREAKOUT
deriving DecidableEq, Repr

/-- The `status` field of `VolatilityAnalysis`. -/
inductive Status where
  | OK | INSUFFICIENT_DATA | ERROR
deriving DecidableEq, Repr

/-- `VolatilityAnalysis` in `src/lib/types.ts` (the optional `symbol` and
`timeframe` fields, never set by the engine, are omitted). -/
structure VolatilityAnalysis where
  status : Status
  price : Option JSNum
  bbWidthPct : Option JSNum
  bbWidthPercentile : Option JSNum
  atrPct : Option JSNum
  atrPercentile : Option JSNum
  squeezeState : SqueezeState
  squeezeBars : ℕ
  signal : Option Signal
  volumeSurge : Bool
  bbUpper : Option JSNum
  bbLower : Option JSNum
  bbMiddle : Option JSNum
  bbPercentB : Option JSNum
  volumeRatio : Option JSNum
  timestamp : Option ℤ
deriving DecidableEq, Repr

/-- `BollingerBands` in `src/lib/types.ts`: parallel per-index series. -/
structure BollingerBands where
  middle : List (Option JSNum)
  upper : List (Option JSNum)
  lower : List (Option JSNum)
  width : List (Option JSNum)
  widthPct : List (Option JSNum)
  percentB : List (Option JSNum)
deriving DecidableEq, Repr

/-- `ATRData` in `src/lib/types.ts`. -/
structure ATRData where
  atr : List JSNum
  atrPct : List (Option JSNum)
deriving DecidableEq, Repr

/-- The `BreakoutResult` interface of `src/lib/indicators.ts`. -/
structure BreakoutResult where
  signal : Option Signal
  squeezeBars : ℕ
  volumeSurge : Bool
  inSqueezeRecently : Bool
deriving DecidableEq, Repr

namespace Indicators

/-- `sma` in `src/lib/indicators.ts`: trailing arithmetic mean, `null` below
`period - 1`. -/
def sma (data : List JSNum) (period : ℕ) : List (Option JSNum) :=
  (List.range data.length).map (fun i =>
    if i < period - 1 then none
    else some (jsDiv (jsSum ((data.take (i + 1)).drop (i + 1 - period))) (.fin period)))

/-- One step of the `ema` loop: `emaGo data period n` is the result array
after the first `n` iterations. -/
def emaGo (data : List JSNum) (period : ℕ) : ℕ → List JSNum
  | 0 => []
  | n + 1 =>
    let result := emaGo data period n
    match data.get? n with
    | none => result
    | some x =>
      let v :=
        if n = 0 then x
        else if n < period - 1 then jsDiv (jsSum (data.take (n + 1))) (.fin (n + 1))
        else if n = period - 1 then jsDiv (jsSum (data.take period)) (.fin period)
        else
          match result.getLast? with
          | some prev => jsAdd (jsMul (jsSub x prev) (.fin (qDiv 2 ((period + 1 : ℕ) : ℚ)))) prev
          | none => x
      result ++ [v]

/-- `ema` in `src/lib/indicators.ts`: growing simple average before the warmup
index, the `period`-SMA at index `period - 1`, then the exponential
recurrence with multiplier `2 / (period + 1)`. -/
def ema (data : List JSNum) (period : ℕ) : List JSNum := emaGo data period data.length

/-- `stdDev` in `src/lib/indicators.ts`: trailing population standard
deviation (`Math.sqrt` of the `period`-divided variance). -/
def stdDev (data : List JSNum) (period : ℕ) : List (Option JSNum) :=
  (List.range data.length).map (fun i =>
    if i < period - 1 then none
    else
      let slice := (data.take (i + 1)).drop (i + 1 - period)
      let mean := jsDiv (jsSum slice) (.fin period)
      let variance := jsDiv (jsSum (slice.map (fun x => jsMul (jsSub x mean) (jsSub x mean)))) (.fin period)
      some (jsSqrt variance))

/-- `calculateBollingerBands` in `src/lib/indicators.ts` (defaults
`period = 20`, `stdDevMultiplier = 2`). -/
def calculateBollingerBands (candles : List Candle) (period : ℕ := 20) (stdDevMultiplier : ℚ := 2) : BollingerBands :=
  let closes := candles.map (fun c => JSNum.fin c.close)
  let middle := sma closes period
  let std := stdDev closes period
  { middle := middle
    upper := (List.range candles.length).map (fun i =>
      match middle.getD i none, std.getD i none with
      | some m, some s => some (jsAdd m (jsMul (.fin stdDevMultiplier) s))
      | _, _ => none)
    lower := (List.range candles.length).map (fun i =>
      match middle.getD i none, std.getD i none with
      | some m, some s => some (jsSub m (jsMul (.fin stdDevMultiplier) s))
      | _, _ => none)
    width := (List.range candles.length).map (fun i =>
      match middle.getD i none, std.getD i none with
      | some m, some s =>
        some (jsSub (jsAdd m (jsMul (.fin stdDevMultiplier) s)) (jsSub m (jsMul (.fin stdDevMultiplier) s)))
      | _, _ => none)
    widthPct := (List.range candles.length).map (fun i =>
      match middle.getD i none, std.getD i none with
      | some m, some s =>
        some (jsMul (jsDiv (jsSub (jsAdd m (jsMul (.fin stdDevMultiplier) s)) (jsSub m (jsMul (.fin stdDevMultiplier) s))) m) (.fin 100))
      | _, _ => none)
    percentB := (List.range candles.length).map (fun i =>
      match middle.getD i none, std.getD i none, closes.get? i with
      | some m, some s, some c =>
        some (jsDiv (jsSub c (jsSub m (jsMul (.fin stdDevMultiplier) s)))
          (jsSub (jsAdd m (jsMul (.fin stdDevMultiplier) s)) (jsSub m (jsMul (.fin stdDevMultiplier) s))))
      | _, _, _ => none) }

/-- `trueRange` in `src/lib/indicators.ts`: `high - low` on the first bar,
`max(high - low, |high - prevClose|, |low - prevClose|)` afterwards.  All
inputs are finite, so the maximum is computed directly on rationals. -/
def trueRange (candles : List Candle) : List JSNum :=
  (List.range candles.length).map (fun i =>
    match candles.get? i with
    | none => .fin 0
    | some c =>
      if i = 0 then .fin (qSub c.high c.low)
      else
        match candles.get? (i - 1) with
        | none => .fin (qSub c.high c.low)
        | some p => .fin (max (max (qSub c.high c.low) |qSub c.high p.close|) |qSub c.low p.close|))

/-- `calculateATR` in `src/lib/indicators.ts` (default `period = 14`). -/
def calculateATR (candles : List Candle) (period : ℕ := 14) : ATRData :=
  let tr := trueRange candles
  let atrValues := ema tr period
  let closes := candles.map (fun c => JSNum.fin c.close)
  { atr := atrValues
    atrPct := (List.range atrValues.length).map (fun i =>
      match atrValues.get? i, closes.get? i with
      | some a, some c => if c = .fin 0 then none else some (jsMul (jsDiv a c) (.fin 100))
      | _, _ => none) }

/-- The body of the `percentileRank` loop of `src/lib/indicators.ts` at one
index: `null` when the value is `null` or the index is below `lookback - 1`;
otherwise the share of the trailing window's non-null values strictly below
the current value, divided by `window.length - 1`, times 100. -/
def prEntry (data : List (Option JSNum)) (lookback : ℕ) (i : ℕ) : Option JSNum :=
  match data.get? i with
  | some (some current) =>
    if i < lookback - 1 then none
    else
      let window := ((data.take (i + 1)).drop (i + 1 - lookback)).filterMap id
      if window.length < 2 then none
      else some (.fin (qMul (qDiv ((window.countP (fun x => jsLtB x current) : ℕ) : ℚ) (qSub ((window.length : ℕ) : ℚ) 1)) 100))
  | _ => none

/-- `percentileRank` in `src/lib/indicators.ts` (and, identically, in
`frontend/js/indicators.js`): the strictly-less count is divided by
`window.length - 1`. -/
def percentileRank (data : List (Option JSNum)) (lookback : ℕ := 100) : List (Option JSNum) :=
  (List.range data.length).map (prEntry data lookback)

/-- `volumeRatio` in `src/lib/indicators.ts`: volume over its 20-SMA, `null`
when the SMA is `null` or zero. -/
def volumeRatio (candles : List Candle) (period : ℕ := 20) : List (Option JSNum) :=
  let volumes := candles.map (fun c => JSNum.fin c.volume)
  let smaVolume := sma volumes period
  (List.range volumes.length).map (fun i =>
    match volumes.get? i with
    | none => none
    | some vol =>
      match smaVolume.getD i none with
      | none => none
      | some avg => if avg = .fin 0 then none else some (jsDiv vol avg))

/-- `detectSqueezeState` in `src/lib/indicators.ts`, with the configured
thresholds 10 (tight squeeze), 20 (squeeze) and 70 (expansion). -/
def detectSqueezeState (bbWidthPercentile : Option JSNum) : SqueezeState :=
  match bbWidthPercentile with
  | none => .NA
  | some v =>
    if jsLtB v (.fin 10) then .TIGHT_SQUEEZE
    else if jsLtB v (.fin 20) then .SQUEEZE
    else if jsLtB (.fin 70) v then .EXPANSION
    else .NORMAL

/-- Is this regime one of the two squeeze states? -/
def isSqueezeish (s : SqueezeState) : Bool := s == .SQUEEZE || s == .TIGHT_SQUEEZE

/-- `countSqueezeBars` in `src/lib/indicators.ts`: consecutive squeeze bars
scanning backward from the end. -/
def countSqueezeBars (squeezeStates : List SqueezeState) : ℕ :=
  (squeezeStates.reverse.takeWhile isSqueezeish).length

/-- `wasInSqueezeRecently` in `src/lib/indicators.ts`:
`squeezeStates.slice(-lookback - 1, -1)` (the up-to-`lookback` bars right
before the final one, the final bar excluded) contains a squeeze bar. -/
def wasInSqueezeRecently (squeezeStates : List SqueezeState) (lookback : ℕ := 10) : Bool :=
  ((squeezeStates.dropLast).drop (squeezeStates.dropLast.length - lookback)).any isSqueezeish

/-- `detectBreakout` in `src/lib/indicators.ts`. -/
def detectBreakout (candles : List Candle) (bb : BollingerBands)
    (squeezeStates : List SqueezeState) (volumeRatios : List (Option JSNum)) : BreakoutResult :=
  if candles.length < 2 then ⟨none, 0, false, false⟩
  else
    let lastIdx := candles.length - 1
    let prevIdx := lastIdx - 1
    match candles.get? lastIdx, candles.get? prevIdx with
    | some current, some previous =>
      let inSq := wasInSqueezeRecently squeezeStates 10
      let sqBars := countSqueezeBars squeezeStates.dropLast
      let volRatio := volumeRatios.getD lastIdx none
      let volumeSurge := match volRatio with
        | some v => jsLeB (.fin (Rat.divInt 3 2)) v
        | none => false
      let bullish := match bb.upper.getD lastIdx none, bb.upper.getD prevIdx none with
        | some cu, some pu => jsLtB cu (.fin current.close) && jsLeB (.fin previous.close) pu && inSq
        | _, _ => false
      let bearish := match bb.lower.getD lastIdx none, bb.lower.getD prevIdx none with
        | some cl, some pl => jsLtB (.fin current.close) cl && jsLeB pl (.fin previous.close) && inSq
        | _, _ => false
      let signal : Option Signal :=
        if bullish then some .BULLISH_BREAKOUT
        else if bearish then some .BEARISH_BREAKOUT
        else none
      ⟨signal, sqBars, volumeSurge, inSq⟩
    | _, _ => ⟨none, 0, false, false⟩

/-- The `round` helper of `src/lib/indicators.ts`: `null` stays `null`, NaN
becomes `null`, and a value is rounded to `decimals` places. -/
def round (value : Option JSNum) (decimals : ℕ) : Option JSNum :=
  match value with
  | none => none
  | some v =>
    if v = .nan then none
    else some (jsDiv (jsRoundHalf (jsMul v (.fin ((10 ^ decimals : ℕ) : ℚ)))) (.fin ((10 ^ decimals : ℕ) : ℚ)))

/-- The per-bar regime sequence that `analyzeVolatility` derives (Bollinger
width percent, its percentile rank, then the squeeze state). -/
def squeezeStatesOf (candles : List Candle) : List SqueezeState :=
  (percentileRank (calculateBollingerBands candles 20 2).widthPct 100).map detectSqueezeState

/-- The `INSUFFICIENT_DATA` snapshot returned by `analyzeVolatility`. -/
def insufficientSnapshot : VolatilityAnalysis :=
  { status := .INSUFFICIENT_DATA, price := none, bbWidthPct := none,
    bbWidthPercentile := none, atrPct := none, atrPercentile := none,
    squeezeState := .NA, squeezeBars := 0, signal := none, volumeSurge := false,
    bbUpper := none, bbLower := none, bbMiddle := none, bbPercentB := none,
    volumeRatio := none, timestamp := none }

/-- `analyzeVolatility` in `src/lib/indicators.ts`. -/
def analyzeVolatility (candles : List Candle) : VolatilityAnalysis :=
  let minPeriod := max (max 20 14) 20
  if candles.length < minPeriod then insufficientSnapshot
  else
    let bb := calculateBollingerBands candles 20 2
    let atrData := calculateATR candles 14
    let volRatios := volumeRatio candles 20
    let bbWidthPercentileArr := percentileRank bb.widthPct 100
    let atrPercentileArr := percentileRank atrData.atrPct 100
    let squeezeStates := bbWidthPercentileArr.map detectSqueezeState
    let breakout := detectBreakout candles bb squeezeStates volRatios
    let lastIdx := candles.length - 1
    match candles.get? lastIdx with
    | none => insufficientSnapshot
    | some current =>
      { status := .OK
        price := round (some (.fin current.close)) 2
        bbWidthPct := round (bb.widthPct.getD lastIdx none) 2
        bbWidthPercentile := round (bbWidthPercentileArr.getD lastIdx none) 1
        atrPct := round (atrData.atrPct.getD lastIdx none) 2
        atrPercentile := round (atrPercentileArr.getD lastIdx none) 1
        squeezeState := squeezeStates.getD lastIdx .NA
        squeezeBars := countSqueezeBars squeezeStates
        signal := breakout.signal
        volumeSurge := breakout.volumeSurge
        bbUpper := round (bb.upper.getD lastIdx none) 2
        bbLower := round (bb.lower.getD lastIdx none) 2
        bbMiddle := round (bb.middle.getD lastIdx none) 2
        bbPercentB := round (bb.percentB.getD lastIdx none) 2
        volumeRatio := round (volRatios.getD lastIdx none) 2
        timestamp := some current.time }

end Indicators

namespace IndicatorsTS

/-- The body of the `percentileRank` loop of the `trading-signals` based
indicator module (`part_002`): identical to `Indicators.prEntry` except that
the strictly-less count is divided by `window.length` ("Fixed: use
window.length instead of window.length - 1"). -/
def prEntry (data : List (Option JSNum)) (lookback : ℕ) (i : ℕ) : Option JSNum :=
  match data.get? i with
  | some (some current) =>
    if i < lookback - 1 then none
    else
      let window := ((data.take (i + 1)).drop (i + 1 - lookback)).filterMap id
      if window.length < 2 then none
      else some (.fin (qMul (qDiv ((window.countP (fun x => jsLtB x current) : ℕ) : ℚ) ((window.length : ℕ) : ℚ)) 100))
  | _ => none

/-- `percentileRank` in the `trading-signals` based indicator module. -/
def percentileRank (data : List (Option JSNum)) (lookback : ℕ := 100) : List (Option JSNum) :=
  (List.range data.length).map (prEntry data lookback)

end IndicatorsTS

namespace DeltaClient

/-- `MAX_CANDLES` in `src/lib/delta-client.ts`. -/
def MAX_CANDLES : ℕ := 250

/-- The module-level candle store: per symbol and timeframe, an optional
stored window (absent maps to `null`, as `getStoredCandles` returns). -/
def CandleStore := String → String → Option (List Candle)

/-- `getStoredCandles` in `src/lib/delta-client.ts`. -/
def getStoredCandles (store : CandleStore) (symbol timeframe : String) : Option (List Candle) :=
  store symbol timeframe

/-- Writing one window of the store (the in-place mutation of the stored
array, modelled functionally). -/
def storeSet (store : CandleStore) (symbol timeframe : String) (w : List Candle) : CandleStore :=
  fun s t => if s = symbol ∧ t = timeframe then some w else store s t

/-- `updateCandle` in `src/lib/delta-client.ts`: the three-way streaming
reconciliation (replace the forming bar, append-and-trim a newer bar, drop a
stale one), returning the updated store and the "new candle created" flag. -/
def updateCandle (store : CandleStore) (symbol timeframe : String) (newCandle : Candle) :
    CandleStore × Bool :=
  match getStoredCandles store symbol timeframe with
  | none => (store, false)
  | some candles =>
    match candles.getLast? with
    | none => (store, false)
    | some lastCandle =>
      if newCandle.time = lastCandle.time then
        (storeSet store symbol timeframe (candles.dropLast ++ [newCandle]), false)
      else if lastCandle.time < newCandle.time then
        let appended := candles ++ [newCandle]
        let trimmed := if MAX_CANDLES < appended.length then appended.drop 1 else appended
        (storeSet store symbol timeframe trimmed, true)
      else (store, false)

/-- Insertion of one value into an ascending list, for `sortAsc`. -/
def insertAsc (x : ℚ) : List ℚ → List ℚ
  | [] => [x]
  | y :: ys => if x ≤ y then x :: y :: ys else y :: insertAsc x ys

/-- `array.sort((a, b) => a - b)` on numbers: ascending insertion sort (for
numeric values any stable comparison sort produces this same list). -/
def sortAsc : List ℚ → List ℚ
  | [] => []
  | x :: xs => insertAsc x (sortAsc xs)

/-- The outlier-rejection block of `fetchCandles` in
`src/lib/delta-client.ts` (lines 159-172): on a batch of more than 10
candles, compute the median close and the median absolute deviation of the
closes, and when the MAD is positive keep exactly the candles whose close is
within `10 * mad` of the median. -/
def filterOutliers (candles : List Candle) : List Candle :=
  if 10 < candles.length then
    let closes := sortAsc (candles.map (fun c => c.close))
    let median := closes.getD (closes.length / 2) 0
    let deviations := candles.map (fun c => |qSub c.close median|)
    let sortedDeviations := sortAsc deviations
    let mad := sortedDeviations.getD (sortedDeviations.length / 2) 0
    if 0 < mad then
      candles.filter (fun c => |qSub c.close median| ≤ qMul 10 mad)
    else candles
  else candles

end DeltaClient

namespace App

/-- The `type` field of an `Alert` (`src/lib/types.ts`). -/
inductive AlertType where
  | breakout | squeeze_entry | tight_squeeze
deriving DecidableEq, Repr

/-- `Alert` in `src/lib/types.ts`. -/
structure Alert where
  id : String
  type : AlertType
  signal : Option Signal := none
  squeezeState : Option SqueezeState := none
  symbol : String
  timeframe : String
  price : JSNum
  squeezeBars : Option ℕ := none
  timestamp : ℤ
deriving DecidableEq, Repr

/-- `ScreenerData`: a JavaScript object keyed by symbol, each value an object
keyed by timeframe (objects modelled as association lists in key-insertion
order, which `Object.keys` iterates). -/
def ScreenerData := List (String × List (String × VolatilityAnalysis))

/-- `newData[symbol]?.[tf]`. -/
def lookupSD (d : ScreenerData) (symbol tf : String) : Option VolatilityAnalysis :=
  match d.lookup symbol with
  | none => none
  | some m => m.lookup tf

/-- `current.price || 0`: a falsy price (`null`, `0` or NaN) becomes `0`. -/
def priceOrZero (p : Option JSNum) : JSNum :=
  match p with
  | none => .fin 0
  | some v => if v = .fin 0 ∨ v = .nan then .fin 0 else v

/-- The state captured by `previousDataRef`, `isInitialLoadRef` and the
`alerts` state of the page component. -/
structure AlertState where
  previousData : ScreenerData
  isInitialLoad : Bool
  alerts : List Alert

/-- The body of the per-(symbol, timeframe) loop of `checkForAlerts`
(`page.tsx` lines 117-169): skip unless both snapshots exist with `OK`
status, then the breakout / squeeze-entry / tight-squeeze else-if chain. -/
def alertFor (symbol tf : String) (current previous : Option VolatilityAnalysis)
    (now : ℤ) : Option Alert :=
  match current with
  | none => none
  | some cur =>
    if cur.status ≠ .OK then none
    else
      match previous with
      | none => none
      | some prev =>
        if prev.status ≠ .OK then none
        else if cur.signal ≠ none ∧ prev.signal ≠ cur.signal then
          some { id := symbol ++ "-" ++ tf ++ "-" ++ toString now, type := .breakout,
                 signal := cur.signal, symbol := symbol, timeframe := tf,
                 price := priceOrZero cur.price, squeezeBars := some cur.squeezeBars,
                 timestamp := now }
        else if (cur.squeezeState = .SQUEEZE ∨ cur.squeezeState = .TIGHT_SQUEEZE) ∧
            (prev.squeezeState = .NORMAL ∨ prev.squeezeState = .EXPANSION) then
          some { id := symbol ++ "-" ++ tf ++ "-" ++ toString now, type := .squeeze_entry,
                 squeezeState := some cur.squeezeState, symbol := symbol, timeframe := tf,
                 price := priceOrZero cur.price, timestamp := now }
        else if cur.squeezeState = .TIGHT_SQUEEZE ∧ prev.squeezeState = .SQUEEZE then
          some { id := symbol ++ "-" ++ tf ++ "-" ++ toString now, type := .tight_squeeze,
                 symbol := symbol, timeframe := tf, price := priceOrZero cur.price,
                 squeezeBars := some cur.squeezeBars, timestamp := now }
        else none

/-- `checkForAlerts` in `page.tsx`: store the first observation as a baseline
without alerting; afterwards collect the per-pair alerts over
`Object.keys(newData) × timeframes`, prepend them to the log capped at 50,
and store the new data as previous. -/
def checkForAlerts (state : AlertState) (newData : ScreenerData)
    (timeframes : List String) (now : ℤ) : AlertState :=
  if state.isInitialLoad then
    { previousData := newData, isInitialLoad := false, alerts := state.alerts }
  else
    let newAlerts := newData.flatMap (fun p =>
      timeframes.filterMap (fun tf =>
        alertFor p.1 tf (lookupSD newData p.1 tf) (lookupSD state.previousData p.1 tf) now))
    { previousData := newData
      isInitialLoad := false
      alerts := if 0 < newAlerts.length then (newAlerts ++ state.alerts).take 50 else state.alerts }

end App

-- Concrete evaluation data (definitions used by witnesses and counterexamples).

/-- A flat candle: all four prices `p`, volume 1. -/
def mkFlat (t : ℤ) (p : ℚ) : Candle := ⟨t, p, p, p, p, 1⟩

/-- 100 flat candles at price 100 followed by a breakout bar closing at 110:
a compression long enough for the percentile rank to become defined, a
squeeze on the penultimate bar and a bullish band cross on the last. -/
def candlesC4 : List Candle :=
  ((List.range 100).map (fun i => mkFlat i 100)) ++ [mkFlat 100 110]

/-- A first candle for small concrete stores. -/
def candleA : Candle := ⟨0, 1, 1, 1, 1, 1⟩

/-- A later candle for small concrete stores. -/
def candleB : Candle := ⟨60, 2, 2, 2, 2, 1⟩

/-- A store holding one window, for the C1 witness. -/
def storeC1 : DeltaClient.CandleStore :=
  fun s t => if s = "BTCUSD" ∧ t = "1m" then some [candleA] else none

/-- Ten flat candles: below the 20-candle minimum, for the C2 witness. -/
def candles10 : List Candle := (List.range 10).map (fun i => mkFlat i 100)

/-- Two candles for the C3 witness (`candleA` then `candleB`). -/
def candlesC3 : List Candle := [candleA, candleB]

/-- Bands for the C3 witness: both upper values 1, lower values absent. -/
def bbC3 : BollingerBands :=
  ⟨[none, none], [some (.fin 1), some (.fin 1)], [none, none],
   [none, none], [none, none], [none, none]⟩

/-- Regime history for the C3 witness: a squeeze right before the last bar. -/
def statesC3 : List SqueezeState := [.SQUEEZE, .NORMAL]

/-- Volume ratios for the C3 witness: current ratio 2. -/
def volsC3 : List (Option JSNum) := [none, some (.fin 2)]

/-- An `OK` snapshot in a squeeze with no signal, for the C5 scenario. -/
def curSqueezeSnap : VolatilityAnalysis :=
  { status := .OK, price := some (.fin 100), bbWidthPct := some (.fin 1),
    bbWidthPercentile := some (.fin 5), atrPct := none, atrPercentile := none,
    squeezeState := .SQUEEZE, squeezeBars := 3, signal := none, volumeSurge := false,
    bbUpper := some (.fin 101), bbLower := some (.fin 99), bbMiddle := some (.fin 100),
    bbPercentB := some (.fin (Rat.divInt 1 2)), volumeRatio := some (.fin 1),
    timestamp := some 0 }

/-- The same snapshot in the `NORMAL` regime, as a previous observation. -/
def prevNormalSnap : VolatilityAnalysis := { curSqueezeSnap with squeezeState := .NORMAL }

/-- A post-baseline alert state with no stored previous snapshots. -/
def stateC5 : App.AlertState := ⟨[], false, []⟩

/-- Fresh screener data holding the squeeze snapshot for one pair. -/
def newDataC5 : App.ScreenerData := [("BTCUSD", [("1m", curSqueezeSnap)])]

/-- The series 0, 1, ..., 99 (all defined), for comparing the two
percentile-rank implementations at the default lookback of 100. -/
def seriesC6 : List (Option JSNum) := (List.range 100).map (fun i => some (.fin i))

/-- A four-value series for the C7 witness. -/
def dataC7 : List JSNum := [.fin 1, .fin 2, .fin 6, .fin 4]

/-- Twelve candles, eleven close to 100 and one corrupt print at 1000, for
the C8 witness. -/
def candlesC8 : List Candle :=
  [mkFlat 0 99] ++ ((List.range 5).map (fun i => mkFlat (i + 1) 100)) ++
    ((List.range 5).map (fun i => mkFlat (i + 6) 101)) ++ [mkFlat 11 1000]

/-- A snapshot field is clean when it is `null` or an ordinary finite
number — never NaN or an infinity. -/
def cleanField (v : Option JSNum) : Prop := v = none ∨ ∃ q : ℚ, v = some (.fin q)

/-- Every numeric field of a snapshot is clean (`timestamp`, an integer, and
the non-numeric fields carry no NaN by type). -/
def cleanSnapshot (a : VolatilityAnalysis) : Prop :=
  cleanField a.price ∧ cleanField a.bbWidthPct ∧ cleanField a.bbWidthPercentile ∧
    cleanField a.atrPct ∧ cleanField a.atrPercentile ∧ cleanField a.bbUpper ∧
    cleanField a.bbLower ∧ cleanField a.bbMiddle ∧ cleanField a.bbPercentB ∧
    cleanField a.volumeRatio

/-- 25 flat candles with positive fields, for the C9 witness. -/
def candles25 : List Candle := (List.range 25).map (fun i => mkFlat i 100)

-- Theorems.

/-- `qAdd` is rational addition. -/
theorem qAdd_eq (a b : ℚ) : qAdd a b = a + b := by
  have ha : (a.den : ℚ) ≠ 0 := by exact_mod_cast a.den_nz
  have hb : (b.den : ℚ) ≠ 0 := by exact_mod_cast b.den_nz
  rw [qAdd, Rat.divInt_eq_div]
  push_cast
  conv_rhs => rw [← Rat.num_div_den a, ← Rat.num_div_den b]
  field_simp

/-- `qSub` is rational subtraction. -/
theorem qSub_eq (a b : ℚ) : qSub a b = a - b := by
  have ha : (a.den : ℚ) ≠ 0 := by exact_mod_cast a.den_nz
  have hb : (b.den : ℚ) ≠ 0 := by exact_mod_cast b.den_nz
  rw [qSub, Rat.divInt_eq_div]
  push_cast
  conv_rhs => rw [← Rat.num_div_den a, ← Rat.num_div_den b]
  field_simp
  ring

/-- `qMul` is rational multiplication. -/
theorem qMul_eq (a b : ℚ) : qMul a b = a * b := by
  have ha : (a.den : ℚ) ≠ 0 := by exact_mod_cast a.den_nz
  have hb : (b.den : ℚ) ≠ 0 := by exact_mod_cast b.den_nz
  rw [qMul, Rat.divInt_eq_div]
  push_cast
  conv_rhs => rw [← Rat.num_div_den a, ← Rat.num_div_den b]
  field_simp

/-- `qDiv` is rational division. -/
theorem qDiv_eq (a b : ℚ) : qDiv a b = a / b := by
  rcases eq_or_ne b 0 with rfl | hb0
  · simp [qDiv, Rat.num_eq_zero.mpr rfl]
  · have ha : (a.den : ℚ) ≠ 0 := by exact_mod_cast a.den_nz
    have hb : (b.den : ℚ) ≠ 0 := by exact_mod_cast b.den_nz
    have hbn : ((b.num : ℚ)) ≠ 0 := by
      exact_mod_cast Rat.num_ne_zero.mpr hb0
    rw [qDiv, Rat.divInt_eq_div]
    push_cast
    conv_rhs => rw [← Rat.num_div_den a, ← Rat.num_div_den b]
    field_simp

/-- `jsAdd` on finite values is rational addition. -/
theorem jsAdd_fin (a b : ℚ) : jsAdd (.fin a) (.fin b) = .fin (a + b) := by
  simp [jsAdd, qAdd_eq]

/-- `jsSub` on finite values is rational subtraction. -/
theorem jsSub_fin (a b : ℚ) : jsSub (.fin a) (.fin b) = .fin (a - b) := by
  simp [jsSub, jsNeg, jsAdd, qAdd_eq, sub_eq_add_neg]

/-- `jsMul` on finite values is rational multiplication. -/
theorem jsMul_fin (a b : ℚ) : jsMul (.fin a) (.fin b) = .fin (a * b) := by
  simp [jsMul, qMul_eq]

/-- `jsDiv` on finite values with a nonzero denominator is rational
division. -/
theorem jsDiv_fin (a b : ℚ) (hb : b ≠ 0) : jsDiv (.fin a) (.fin b) = .fin (a / b) := by
  simp [jsDiv, hb, qDiv_eq]

/-- `jsLtB` on finite values decides rational `<`. -/
theorem jsLtB_fin (a b : ℚ) : jsLtB (.fin a) (.fin b) = decide (a < b) := rfl

/-- `jsLeB` on finite values decides rational `≤`. -/
theorem jsLeB_fin (a b : ℚ) : jsLeB (.fin a) (.fin b) = decide (a ≤ b) := rfl

/-- C1: `updateCandle` follows the three-way streaming reconciliation rule:
an empty or absent window is a no-op returning `false`; a tick at the last
candle's time replaces the last candle in place and returns `false`; a
strictly newer tick is appended (evicting the oldest candle once the window
exceeds `MAX_CANDLES`) and returns `true`; a strictly older tick leaves the
store unchanged and returns `false`. -/
theorem updateCandle_three_way (store : DeltaClient.CandleStore)
    (symbol timeframe : String) (c : Candle) :
    ((DeltaClient.getStoredCandles store symbol timeframe = none ∨
      DeltaClient.getStoredCandles store symbol timeframe = some []) →
        DeltaClient.updateCandle store symbol timeframe c = (store, false)) ∧
    (∀ w last, DeltaClient.getStoredCandles store symbol timeframe = some w →
      w.getLast? = some last →
      ((c.time = last.time →
          DeltaClient.updateCandle store symbol timeframe c =
            (DeltaClient.storeSet store symbol timeframe (w.dropLast ++ [c]), false)) ∧
       (last.time < c.time →
          DeltaClient.updateCandle store symbol timeframe c =
            (DeltaClient.storeSet store symbol timeframe
              (if DeltaClient.MAX_CANDLES < (w ++ [c]).length then (w ++ [c]).drop 1
               else w ++ [c]), true)) ∧
       (c.time < last.time →
          DeltaClient.updateCandle store symbol timeframe c = (store, false)))) := by
  constructor
  · rintro (h | h) <;> simp [DeltaClient.updateCandle, h]
  · intro w last hw hlast
    refine ⟨fun hcmp => ?_, fun hcmp => ?_, fun hcmp => ?_⟩
    · simp [DeltaClient.updateCandle, hw, hlast, hcmp]
    · simp [DeltaClient.updateCandle, hw, hlast, ne_of_gt hcmp, hcmp]
    · simp [DeltaClient.updateCandle, hw, hlast, ne_of_lt hcmp, lt_asymm hcmp]

/-- Witness for C1: appending a strictly newer tick to a one-candle window
returns `true` and stores the appended window. -/
theorem updateCandle_three_way_witness :
    DeltaClient.updateCandle storeC1 "BTCUSD" "1m" candleB =
      (DeltaClient.storeSet storeC1 "BTCUSD" "1m"
        (if DeltaClient.MAX_CANDLES < ([candleA] ++ [candleB]).length
         then ([candleA] ++ [candleB]).drop 1 else [candleA] ++ [candleB]), true) :=
  ((updateCandle_three_way storeC1 "BTCUSD" "1m" candleB).2 [candleA] candleA
    (by decide) (by decide)).2.1 (by decide)

/-- C2: on fewer than `max(bbPeriod, atrPeriod, 20) = 20` candles (the empty
list included), `analyzeVolatility` short-circuits to the
`INSUFFICIENT_DATA` snapshot: every numeric field `null`, squeeze state
`'N/A'`, zero squeeze bars, no signal, no volume surge, no timestamp. -/
theorem analyzeVolatility_insufficient (candles : List Candle)
    (h : candles.length < 20) :
    Indicators.analyzeVolatility candles =
      { status := .INSUFFICIENT_DATA, price := none, bbWidthPct := none,
        bbWidthPercentile := none, atrPct := none, atrPercentile := none,
        squeezeState := .NA, squeezeBars := 0, signal := none, volumeSurge := false,
        bbUpper := none, bbLower := none, bbMiddle := none, bbPercentB := none,
        volumeRatio := none, timestamp := none } := by
  have h20 : candles.length < max (max 20 14) 20 := by simpa using h
  simp only [Indicators.analyzeVolatility, if_pos h20]
  rfl

/-- Witness for C2: a window of exactly 10 candles yields the
`INSUFFICIENT_DATA` snapshot with every numeric field `null`. -/
theorem analyzeVolatility_insufficient_witness :
    candles10.length < 20 ∧
    Indicators.analyzeVolatility candles10 =
      { status := .INSUFFICIENT_DATA, price := none, bbWidthPct := none,
        bbWidthPercentile := none, atrPct := none, atrPercentile := none,
        squeezeState := .NA, squeezeBars := 0, signal := none, volumeSurge := false,
        bbUpper := none, bbLower := none, bbMiddle := none, bbPercentB := none,
        volumeRatio := none, timestamp := none } :=
  ⟨by decide, analyzeVolatility_insufficient candles10 (by decide)⟩

/-- C3: with at least two candles, `detectBreakout` yields `BULLISH_BREAKOUT`
exactly when both upper-band values are defined, the current close crosses
above the current upper band, the previous close was at or below the previous
upper band, and a squeeze occurred within the 10 bars preceding the current
bar; `BEARISH_BREAKOUT` exactly when the bullish condition fails and the
mirrored lower-band condition holds (bullish is checked first, so at most one
signal fires); the volume surge flag holds exactly when the current volume
ratio is defined and at least 1.5, and the signal never depends on the volume
ratios. -/
theorem detectBreakout_spec (candles : List Candle) (bb : BollingerBands)
    (states : List SqueezeState) (vols : List (Option JSNum))
    (h : 2 ≤ candles.length) (current previous : Candle)
    (hc : candles.get? (candles.length - 1) = some current)
    (hp : candles.get? (candles.length - 1 - 1) = some previous) :
    ((Indicators.detectBreakout candles bb states vols).signal = some .BULLISH_BREAKOUT ↔
      (∃ cu pu, bb.upper.getD (candles.length - 1) none = some cu ∧
        bb.upper.getD (candles.length - 1 - 1) none = some pu ∧
        jsLtB cu (.fin current.close) = true ∧
        jsLeB (.fin previous.close) pu = true ∧
        Indicators.wasInSqueezeRecently states 10 = true)) ∧
    ((Indicators.detectBreakout candles bb states vols).signal = some .BEARISH_BREAKOUT ↔
      (¬ (∃ cu pu, bb.upper.getD (candles.length - 1) none = some cu ∧
        bb.upper.getD (candles.length - 1 - 1) none = some pu ∧
        jsLtB cu (.fin current.close) = true ∧
        jsLeB (.fin previous.close) pu = true ∧
        Indicators.wasInSqueezeRecently states 10 = true) ∧
       (∃ cl pl, bb.lower.getD (candles.length - 1) none = some cl ∧
        bb.lower.getD (candles.length - 1 - 1) none = some pl ∧
        jsLtB (.fin current.close) cl = true ∧
        jsLeB pl (.fin previous.close) = true ∧
        Indicators.wasInSqueezeRecently states 10 = true))) ∧
    ((Indicators.detectBreakout candles bb states vols).volumeSurge = true ↔
      (∃ v, vols.getD (candles.length - 1) none = some v ∧
        jsLeB (.fin (Rat.divInt 3 2)) v = true)) ∧
    (∀ vols', (Indicators.detectBreakout candles bb states vols').signal =
      (Indicators.detectBreakout candles bb states vols).signal) := by
  have hlt : ¬ candles.length < 2 := not_lt.mpr h
  refine ⟨?_, ?_, ?_, ?_⟩
  · simp only [Indicators.detectBreakout, hlt, if_false, hc, hp]
    rcases hcu : bb.upper.getD (candles.length - 1) none with _ | cu <;>
      rcases hpu : bb.upper.getD (candles.length - 1 - 1) none with _ | pu <;>
        simp [hcu, hpu, Bool.and_eq_true]
  · simp only [Indicators.detectBreakout, hlt, if_false, hc, hp]
    rcases hcu : bb.upper.getD (candles.length - 1) none with _ | cu <;>
      rcases hpu : bb.upper.getD (candles.length - 1 - 1) none with _ | pu <;>
        rcases hcl : bb.lower.getD (candles.length - 1) none with _ | cl <;>
          rcases hpl : bb.lower.getD (candles.length - 1 - 1) none with _ | pl <;>
            simp [hcu, hpu, hcl, hpl, Bool.and_eq_true] <;>
              by_cases h1 : jsLtB cu (JSNum.fin current.close) = true <;>
                by_cases h2 : jsLeB (JSNum.fin previous.close) pu = true <;>
                  by_cases h3 : Indicators.wasInSqueezeRecently states 10 = true <;>
                    simp_all
  · simp only [Indicators.detectBreakout, hlt, if_false, hc, hp]
    rcases hv : vols.getD (candles.length - 1) none with _ | v <;> simp [hv]
  · intro vols'
    simp only [Indicators.detectBreakout, hlt, if_false, hc, hp]

/-- Witness for C3: a band cross right after a squeeze fires the bullish
signal, and a volume ratio of 2 sets the surge flag. -/
theorem detectBreakout_spec_witness :
    (Indicators.detectBreakout candlesC3 bbC3 statesC3 volsC3).signal = some .BULLISH_BREAKOUT ∧
    (Indicators.detectBreakout candlesC3 bbC3 statesC3 volsC3).volumeSurge = true := by
  have hs := detectBreakout_spec candlesC3 bbC3 statesC3 volsC3 (by decide) candleB candleA
    (by decide) (by decide)
  exact ⟨hs.1.mpr ⟨.fin 1, .fin 1, by decide, by decide, by decide, by decide, by decide⟩,
    hs.2.2.1.mpr ⟨.fin 2, by decide, by decide⟩⟩

/-- Counterexample to C4: on `candlesC4` the snapshot carries the bullish
breakout signal, yet its `squeezeBars` field is 0 while the backward count
over the regime history excluding the current bar is 1 — `analyzeVolatility`
reports `countSqueezeBars` over the full history including the
already-broken-out bar, discarding the exclusive count that `detectBreakout`
computed. -/
theorem analyzeVolatility_squeezeBars_cex :
    (Indicators.analyzeVolatility candlesC4).signal = some .BULLISH_BREAKOUT ∧
    (Indicators.analyzeVolatility candlesC4).squeezeBars ≠
      Indicators.countSqueezeBars ((Indicators.squeezeStatesOf candlesC4).dropLast) ∧
    (Indicators.analyzeVolatility candlesC4).squeezeBars = 0 ∧
    Indicators.countSqueezeBars ((Indicators.squeezeStatesOf candlesC4).dropLast) = 1 := by
  decide

/-- C4 (amended): whenever the snapshot carries a non-null breakout signal,
its `squeezeBars` field equals the count of consecutive squeeze bars scanned
backward over the regime history including the current bar. -/
theorem analyzeVolatility_squeezeBars_full (candles : List Candle)
    (h : (Indicators.analyzeVolatility candles).signal ≠ none) :
    (Indicators.analyzeVolatility candles).squeezeBars =
      Indicators.countSqueezeBars (Indicators.squeezeStatesOf candles) := by
  by_cases hlen : candles.length < 20
  · exact absurd (by simp [Indicators.analyzeVolatility, hlen, Indicators.insufficientSnapshot]) h
  · rcases hg : candles.get? (candles.length - 1) with _ | current
    · rw [List.get?_eq_none] at hg
      omega
    · rw [List.get?_eq_getElem?] at hg
      simp [Indicators.analyzeVolatility, hlen, hg, Indicators.squeezeStatesOf]

/-- Witness for the amended C4 on the concrete breakout scenario. -/
theorem analyzeVolatility_squeezeBars_full_witness :
    (Indicators.analyzeVolatility candlesC4).signal ≠ none ∧
    (Indicators.analyzeVolatility candlesC4).squeezeBars =
      Indicators.countSqueezeBars (Indicators.squeezeStatesOf candlesC4) :=
  ⟨by decide, analyzeVolatility_squeezeBars_full candlesC4 (by decide)⟩

/-- Counterexample to C5: a non-baseline update whose current snapshot is
`OK`, in a squeeze, with no breakout alert, and with no previous snapshot for
the pair, emits no alert at all — `checkForAlerts` skips a pair whose
previous snapshot is absent instead of treating it as satisfying the
previous-regime condition. -/
theorem checkForAlerts_no_previous_cex :
    stateC5.isInitialLoad = false ∧
    App.lookupSD newDataC5 "BTCUSD" "1m" = some curSqueezeSnap ∧
    curSqueezeSnap.status = .OK ∧
    curSqueezeSnap.signal = none ∧
    curSqueezeSnap.squeezeState = .SQUEEZE ∧
    App.lookupSD stateC5.previousData "BTCUSD" "1m" = none ∧
    (App.checkForAlerts stateC5 newDataC5 ["1m"] 0).alerts = [] := by
  decide

/-- C5 (amended): on a non-baseline update, for a pair whose current snapshot
has `OK` status, a `squeeze_entry` alert is emitted precisely when a previous
snapshot exists with `OK` status, the breakout branch does not fire, the
current regime is `SQUEEZE` or `TIGHT_SQUEEZE`, and the previous regime is
`NORMAL` or `EXPANSION`; a pair with an absent (or non-`OK`) previous
snapshot emits nothing. -/
theorem alertFor_squeeze_entry_iff (symbol tf : String) (cur : VolatilityAnalysis)
    (prev? : Option VolatilityAnalysis) (now : ℤ) (hok : cur.status = .OK) :
    (∃ a, App.alertFor symbol tf (some cur) prev? now = some a ∧ a.type = .squeeze_entry) ↔
      (∃ prev, prev? = some prev ∧ prev.status = .OK ∧
        ¬(cur.signal ≠ none ∧ prev.signal ≠ cur.signal) ∧
        (cur.squeezeState = .SQUEEZE ∨ cur.squeezeState = .TIGHT_SQUEEZE) ∧
        (prev.squeezeState = .NORMAL ∨ prev.squeezeState = .EXPANSION)) := by
  cases prev? with
  | none => simp [App.alertFor, hok]
  | some prev =>
    by_cases hpok : prev.status = .OK
    · by_cases hbr : cur.signal ≠ none ∧ prev.signal ≠ cur.signal
      · simp [App.alertFor, hok, hpok, hbr]
      · by_cases hsq : (cur.squeezeState = .SQUEEZE ∨ cur.squeezeState = .TIGHT_SQUEEZE) ∧
          (prev.squeezeState = .NORMAL ∨ prev.squeezeState = .EXPANSION)
        · simp [App.alertFor, hok, hpok, hbr, hsq]
          tauto
        · by_cases hts : cur.squeezeState = .TIGHT_SQUEEZE ∧ prev.squeezeState = .SQUEEZE
          · simp [App.alertFor, hok, hpok, hbr, hsq, hts]
          · simp [App.alertFor, hok, hpok, hbr, hsq, hts]
    · simp [App.alertFor, hok, hpok]

/-- Witness for the amended C5: a `NORMAL → SQUEEZE` transition with an `OK`
previous snapshot emits a `squeeze_entry` alert. -/
theorem alertFor_squeeze_entry_iff_witness :
    curSqueezeSnap.status = .OK ∧
    (∃ a, App.alertFor "BTCUSD" "1m" (some curSqueezeSnap) (some prevNormalSnap) 0 = some a ∧
      a.type = .squeeze_entry) :=
  ⟨rfl, (alertFor_squeeze_entry_iff "BTCUSD" "1m" curSqueezeSnap (some prevNormalSnap) 0
    rfl).mpr ⟨prevNormalSnap, rfl, rfl, by decide, by decide, by decide⟩⟩

/-- C6: the two percentile-rank implementations are mutually inconsistent: on
the strictly increasing 100-value series, at index 99 (which passes every
guard — the index reaches `lookback - 1`, the value is defined, and the
window holds 100 defined values), `src/lib/indicators.ts` (dividing the
strictly-less count 99 by `window.length - 1 = 99`) returns 100 while the
`trading-signals` module (dividing by `window.length = 100`) returns 99, so
the two functions are not extensionally equal. -/
theorem percentileRank_versions_differ :
    seriesC6.get? 99 = some (some (.fin 99)) ∧
    (Indicators.percentileRank seriesC6 100).get? 99 = some (some (.fin 100)) ∧
    (IndicatorsTS.percentileRank seriesC6 100).get? 99 = some (some (.fin 99)) ∧
    Indicators.percentileRank seriesC6 100 ≠ IndicatorsTS.percentileRank seriesC6 100 := by
  decide

/-- After `n` loop iterations the EMA result array holds
`min n data.length` entries. -/
theorem emaGo_length (data : List JSNum) (p n : ℕ) :
    (Indicators.emaGo data p n).length = min n data.length := by
  induction n with
  | zero => simp [Indicators.emaGo]
  | succ n ih =>
    cases hx : data.get? n with
    | none =>
      have hlen : data.length ≤ n := List.get?_eq_none.mp hx
      simp only [Indicators.emaGo, hx]
      rw [ih]
      omega
    | some x =>
      have hlen : n < data.length := by
        by_contra hcon
        rw [List.get?_eq_none.mpr (not_lt.mp hcon)] at hx
        cases hx
      simp only [Indicators.emaGo, hx, List.length_append, List.length_singleton]
      rw [ih]
      omega

/-- Entries of the EMA result array are stable under further iterations. -/
theorem emaGo_stable (data : List JSNum) (p : ℕ) {m n i : ℕ} (him : i < m) (hmn : m ≤ n) :
    (Indicators.emaGo data p n).get? i = (Indicators.emaGo data p m).get? i := by
  induction n with
  | zero => exact absurd (him.trans_le hmn) (Nat.not_lt_zero i)
  | succ n ih =>
    rcases Nat.eq_or_lt_of_le hmn with rfl | hlt
    · rfl
    · have hmn' : m ≤ n := by omega
      have step : (Indicators.emaGo data p (n + 1)).get? i = (Indicators.emaGo data p n).get? i := by
        cases hx : data.get? n with
        | none => simp only [Indicators.emaGo, hx]
        | some x =>
          have hnlen : n < data.length := by
            by_contra hcon
            rw [List.get?_eq_none.mpr (not_lt.mp hcon)] at hx
            cases hx
          have hi : i < (Indicators.emaGo data p n).length := by
            rw [emaGo_length]
            omega
          simp only [Indicators.emaGo, hx]
          exact List.get?_append hi
      rw [step, ih hmn']

/-- The entry produced by one EMA loop iteration. -/
theorem emaGo_succ_get (data : List JSNum) (p i : ℕ) (x : JSNum)
    (hx : data.get? i = some x) :
    (Indicators.emaGo data p (i + 1)).get? i =
      some (if i = 0 then x
        else if i < p - 1 then jsDiv (jsSum (data.take (i + 1))) (.fin (i + 1))
        else if i = p - 1 then jsDiv (jsSum (data.take p)) (.fin p)
        else match (Indicators.emaGo data p i).getLast? with
          | some prev => jsAdd (jsMul (jsSub x prev) (.fin (qDiv 2 ((p + 1 : ℕ) : ℚ)))) prev
          | none => x) := by
  have hnlen : i < data.length := by
    by_contra hcon
    rw [List.get?_eq_none.mpr (not_lt.mp hcon)] at hx
    cases hx
  have hres : (Indicators.emaGo data p i).length = i := by
    rw [emaGo_length]
    omega
  simp only [Indicators.emaGo, hx]
  have key := List.get?_concat_length (Indicators.emaGo data p i)
  rw [hres] at key
  exact key _

/-- C7: for nonempty data and `period ≥ 2`, `ema` is defined from index 0:
entry 0 is the first value, entries below `period - 1` are the growing simple
average of the first `i + 1` values, entry `period - 1` is the SMA of the
first `period` values, and every later entry follows the recurrence
`prev + (value - prev) * 2 / (period + 1)`. -/
theorem ema_spec (data : List JSNum) (period : ℕ) (hp : 2 ≤ period) (hne : data ≠ []) :
    (Indicators.ema data period).length = data.length ∧
    (Indicators.ema data period).get? 0 = data.get? 0 ∧
    (∀ i, 0 < i → i < period - 1 → i < data.length →
      (Indicators.ema data period).get? i =
        some (jsDiv (jsSum (data.take (i + 1))) (.fin ((i + 1 : ℕ) : ℚ)))) ∧
    (period - 1 < data.length →
      (Indicators.ema data period).get? (period - 1) =
        some (jsDiv (jsSum (data.take period)) (.fin ((period : ℕ) : ℚ)))) ∧
    (∀ i x prev, period - 1 < i → i < data.length →
      data.get? i = some x →
      (Indicators.ema data period).get? (i - 1) = some prev →
      (Indicators.ema data period).get? i =
        some (jsAdd (jsMul (jsSub x prev) (.fin (2 / ((period : ℚ) + 1)))) prev)) := by
  have hlen0 : 0 < data.length := List.length_pos.mpr hne
  have hget : ∀ i, i < data.length →
      (Indicators.ema data period).get? i = (Indicators.emaGo data period (i + 1)).get? i :=
    fun i hi => emaGo_stable data period (Nat.lt_succ_self i) hi
  refine ⟨?_, ?_, ?_, ?_, ?_⟩
  · simp [Indicators.ema, emaGo_length]
  · cases hx : data.get? 0 with
    | none => exact absurd (List.get?_eq_none.mp hx) (by omega)
    | some x =>
      rw [show Indicators.ema data period = Indicators.emaGo data period data.length from rfl,
        emaGo_stable data period Nat.zero_lt_one hlen0, emaGo_succ_get data period 0 x hx]
      simp
  · intro i h0 hip hil
    cases hx : data.get? i with
    | none => exact absurd (List.get?_eq_none.mp hx) (by omega)
    | some x =>
      rw [hget i hil, emaGo_succ_get data period i x hx,
        if_neg (by omega : ¬ i = 0), if_pos hip]
      norm_cast
  · intro hpl
    cases hx : data.get? (period - 1) with
    | none => exact absurd (List.get?_eq_none.mp hx) (by omega)
    | some x =>
      rw [hget _ hpl, emaGo_succ_get data period (period - 1) x hx,
        if_neg (by omega : ¬ period - 1 = 0), if_neg (by omega : ¬ period - 1 < period - 1),
        if_pos rfl]
  · intro i x prev hpi hil hx hprev
    have hlast : (Indicators.emaGo data period i).getLast? = some prev := by
      rw [List.getLast?_eq_get?, emaGo_length]
      have hmin : min i data.length = i := by omega
      rw [hmin, ← emaGo_stable data period (by omega : i - 1 < i) (by omega : i ≤ data.length)]
      exact hprev
    rw [hget i hil, emaGo_succ_get data period i x hx,
      if_neg (by omega : ¬ i = 0), if_neg (by omega : ¬ i < period - 1),
      if_neg (by omega : ¬ i = period - 1), hlast]
    have hmult : qDiv 2 ((period + 1 : ℕ) : ℚ) = 2 / ((period : ℚ) + 1) := by
      rw [qDiv_eq]
      push_cast
      ring
    rw [hmult]

/-- Witness for C7: with period 3, entry 3 of the EMA of `[1, 2, 6, 4]`
follows the recurrence from the warm-up SMA 3. -/
theorem ema_spec_witness :
    dataC7 ≠ [] ∧
    (Indicators.ema dataC7 3).get? 3 =
      some (jsAdd (jsMul (jsSub (.fin 4) (.fin 3)) (.fin (2 / ((3 : ℚ) + 1)))) (.fin 3)) :=
  ⟨by decide, (ema_spec dataC7 3 (by omega) (by decide)).2.2.2.2 3 (.fin 4) (.fin 3)
    (by omega) (by decide) (by decide) (by decide)⟩

/-- C8: the outlier filter of `fetchCandles` leaves a batch of at most 10
candles untouched; on a larger batch it takes the median close (the sorted
closes at index `length / 2`) and the median absolute deviation of the
closes from it, passes the batch through unchanged when the MAD is zero, and
otherwise keeps exactly the candles whose close lies within `10 * mad` of
the median (`qSub`/`qMul` are rational subtraction and multiplication, by
`qSub_eq` and `qMul_eq`). -/
theorem filterOutliers_spec (candles : List Candle) :
    (candles.length ≤ 10 → DeltaClient.filterOutliers candles = candles) ∧
    (10 < candles.length →
      ∀ median mad : ℚ,
        median = (DeltaClient.sortAsc (candles.map (fun c => c.close))).getD
          ((DeltaClient.sortAsc (candles.map (fun c => c.close))).length / 2) 0 →
        mad = (DeltaClient.sortAsc (candles.map (fun c => |qSub c.close median|))).getD
          ((DeltaClient.sortAsc (candles.map (fun c => |qSub c.close median|))).length / 2) 0 →
        ((mad = 0 → DeltaClient.filterOutliers candles = candles) ∧
         (0 < mad → DeltaClient.filterOutliers candles =
            candles.filter (fun c => |qSub c.close median| ≤ qMul 10 mad)))) := by
  constructor
  · intro h
    rw [DeltaClient.filterOutliers, if_neg (by omega)]
  · intro h median mad hmed hmad
    constructor
    · intro h0
      rw [DeltaClient.filterOutliers, if_pos h]
      dsimp only
      rw [← hmed, ← hmad, if_neg (by rw [h0]; exact lt_irrefl 0)]
    · intro h0
      rw [DeltaClient.filterOutliers, if_pos h]
      dsimp only
      rw [← hmed, ← hmad, if_pos h0]

/-- Witness for C8: on the twelve-candle batch the median close is 101, the
MAD is 1, and the corrupt print at 1000 is dropped. -/
theorem filterOutliers_spec_witness :
    10 < candlesC8.length ∧
    DeltaClient.filterOutliers candlesC8 =
      candlesC8.filter (fun c => |qSub c.close 101| ≤ qMul 10 1) :=
  ⟨by decide, ((filterOutliers_spec candlesC8).2 (by decide) 101 1 (by decide)
    (by decide)).2 (by decide)⟩

/-- Dropping the `null` entries commutes with mapping a function over the
defined values. -/
theorem filterMap_id_map_optionMap (f : JSNum → JSNum) (l : List (Option JSNum)) :
    (l.map (Option.map f)).filterMap id = (l.filterMap id).map f := by
  induction l with
  | nil => rfl
  | cons hd tl ih => cases hd <;> simp [ih]

/-- JavaScript `<` between two values is invariant under adding the same
finite constant to both sides. -/
theorem jsLtB_shift (x y : JSNum) (c : ℚ) :
    jsLtB (jsAdd x (.fin c)) (jsAdd y (.fin c)) = jsLtB x y := by
  cases x <;> cases y <;> simp [jsAdd, jsLtB, qAdd_eq]

/-- The percentile-rank loop body at `i` is unchanged when every value in the
window ending at `i` is shifted by a finite constant. -/
theorem prEntry_shift (data : List (Option JSNum)) (lookback i : ℕ) (c : ℚ)
    (hlb : 0 < lookback) (hi : i < data.length) :
    Indicators.prEntry
      (data.take (i + 1 - lookback) ++
        ((data.take (i + 1)).drop (i + 1 - lookback)).map
          (Option.map (fun x => jsAdd x (.fin c))) ++
        data.drop (i + 1)) lookback i =
    Indicators.prEntry data lookback i := by
  have haa : i + 1 - lookback ≤ i := by omega
  have hs1 : (data.take (i + 1 - lookback)).length = i + 1 - lookback := by
    simp
    omega
  have hs2 : (((data.take (i + 1)).drop (i + 1 - lookback)).map
      (Option.map (fun x => jsAdd x (.fin c)))).length = i + 1 - (i + 1 - lookback) := by
    simp
    omega
  have hAB : (data.take (i + 1 - lookback) ++
      ((data.take (i + 1)).drop (i + 1 - lookback)).map
        (Option.map (fun x => jsAdd x (.fin c)))).length = i + 1 := by
    rw [List.length_append, hs1, hs2]
    omega
  have hget : (data.take (i + 1 - lookback) ++
      ((data.take (i + 1)).drop (i + 1 - lookback)).map
        (Option.map (fun x => jsAdd x (.fin c))) ++
      data.drop (i + 1)).get? i =
      (data.get? i).map (Option.map (fun x => jsAdd x (.fin c))) := by
    rw [List.get?_append (by rw [hAB]; omega),
      List.get?_append_right (by rw [hs1]; omega), hs1,
      List.get?_map, List.get?_drop,
      show i + 1 - lookback + (i - (i + 1 - lookback)) = i by omega,
      List.get?_take (by omega)]
  have htake : (data.take (i + 1 - lookback) ++
      ((data.take (i + 1)).drop (i + 1 - lookback)).map
        (Option.map (fun x => jsAdd x (.fin c))) ++
      data.drop (i + 1)).take (i + 1) =
      data.take (i + 1 - lookback) ++
        ((data.take (i + 1)).drop (i + 1 - lookback)).map
          (Option.map (fun x => jsAdd x (.fin c))) := by
    rw [List.take_append_eq_append_take,
      List.take_of_length_le (le_of_eq hAB), hAB, Nat.sub_self, List.take_zero,
      List.append_nil]
  have hwin : ((data.take (i + 1 - lookback) ++
      ((data.take (i + 1)).drop (i + 1 - lookback)).map
        (Option.map (fun x => jsAdd x (.fin c))) ++
      data.drop (i + 1)).take (i + 1)).drop (i + 1 - lookback) =
      ((data.take (i + 1)).drop (i + 1 - lookback)).map
        (Option.map (fun x => jsAdd x (.fin c))) := by
    rw [htake, List.drop_append_eq_append_drop,
      List.drop_eq_nil_of_le (le_of_eq hs1), hs1, Nat.sub_self, List.drop_zero,
      List.nil_append]
  simp only [Indicators.prEntry]
  rw [hget]
  cases hdi : data.get? i with
  | none => rfl
  | some v =>
    cases v with
    | none => rfl
    | some cur =>
      simp only [Option.map_some']
      by_cases hguard : i < lookback - 1
      · simp [hguard]
      · simp only [if_neg hguard]
        rw [hwin, filterMap_id_map_optionMap]
        simp only [List.length_map, List.countP_map]
        have hcount : List.countP
              ((fun x => jsLtB x (jsAdd cur (.fin c))) ∘ (fun x => jsAdd x (.fin c)))
              (((data.take (i + 1)).drop (i + 1 - lookback)).filterMap id) =
            List.countP (fun x => jsLtB x cur)
              (((data.take (i + 1)).drop (i + 1 - lookback)).filterMap id) :=
          List.countP_congr (fun x _ => by simp [Function.comp_apply, jsLtB_shift])
        rw [hcount]

/-- C10: replacing each defined value inside the lookback window ending at
`i` (the slice from `max(0, i - lookback + 1)` to `i`) by that value plus a
constant `c` leaves `percentileRank` at index `i` unchanged: the defined
status and the numeric rank are both preserved, because the strictly-less
count and the window's comparison denominator are invariant under the
shift. -/
theorem percentileRank_shift_invariant (data : List (Option JSNum)) (lookback i : ℕ) (c : ℚ) :
    (Indicators.percentileRank
        (data.take (i + 1 - lookback) ++
          ((data.take (i + 1)).drop (i + 1 - lookback)).map
            (Option.map (fun x => jsAdd x (.fin c))) ++
          data.drop (i + 1)) lookback).get? i =
      (Indicators.percentileRank data lookback).get? i := by
  rcases Nat.eq_zero_or_pos lookback with rfl | hlb
  · rw [Nat.sub_zero, List.drop_eq_nil_of_le (by simp), List.map_nil, List.append_nil,
      List.take_append_drop]
  · have hlen' : (data.take (i + 1 - lookback) ++
        ((data.take (i + 1)).drop (i + 1 - lookback)).map
          (Option.map (fun x => jsAdd x (.fin c))) ++
        data.drop (i + 1)).length = data.length := by
      simp
      omega
    by_cases hi : i < data.length
    · have hpr : ∀ (d : List (Option JSNum)), i < d.length →
          (Indicators.percentileRank d lookback).get? i =
            some (Indicators.prEntry d lookback i) := by
        intro d hd
        rw [Indicators.percentileRank, List.get?_map, List.get?_range hd]
        rfl
      rw [hpr _ (by omega), hpr data hi, prEntry_shift data lookback i c hlb hi]
    · have hnone : ∀ (d : List (Option JSNum)), d.length = data.length →
          (Indicators.percentileRank d lookback).get? i = none := by
        intro d hd
        rw [Indicators.percentileRank]
        apply List.get?_eq_none.mpr
        simp [hd]
        omega
      rw [hnone _ hlen', hnone data rfl]

/-- Newton iteration keeps a positive guess positive (for `n ≥ 2`). -/
theorem isqrtIter_pos (n : ℕ) (hn : 2 ≤ n) :
    ∀ fuel guess, 1 ≤ guess → 1 ≤ isqrtIter n fuel guess := by
  intro fuel
  induction fuel with
  | zero => intro g hg; simpa [isqrtIter] using hg
  | succ f ih =>
    intro g hg
    rw [isqrtIter]
    have hsum : 2 ≤ g + n / g := by
      rcases Nat.lt_or_ge g 2 with h2 | h2
      · have : g = 1 := by omega
        subst this
        rw [Nat.div_one]
        omega
      · exact h2.trans (Nat.le_add_right g _)
    split
    · exact ih _ (by omega)
    · exact hg

/-- The fueled integer square root vanishes only at zero. -/
theorem isqrt_eq_zero_iff (n : ℕ) : isqrt n = 0 ↔ n = 0 := by
  constructor
  · intro h
    by_contra hn
    rcases Nat.lt_or_ge n 2 with h2 | h2
    · have : n = 1 := by omega
      subst this
      simp [isqrt] at h
    · rw [isqrt, if_neg (by omega)] at h
      have := isqrtIter_pos n h2 n (n / 2) (by omega)
      omega
  · rintro rfl
    rfl

/-- `ratSqrt` is nonnegative. -/
theorem ratSqrt_nonneg (q : ℚ) : 0 ≤ ratSqrt q := by
  rw [ratSqrt, qDiv_eq]
  exact div_nonneg (by positivity) (by positivity)

/-- On nonnegative arguments `ratSqrt` vanishes only at zero (a property of
the true square root that the approximation preserves). -/
theorem ratSqrt_eq_zero (q : ℚ) (hq : 0 ≤ q) (h : ratSqrt q = 0) : q = 0 := by
  rw [ratSqrt, qDiv_eq, div_eq_zero_iff] at h
  have hden : ((q.den : ℕ) : ℚ) ≠ 0 := by
    exact_mod_cast q.den_nz
  rcases h with h | h
  · have : isqrt (q.num.toNat * q.den) = 0 := by exact_mod_cast h
    rw [isqrt_eq_zero_iff, Nat.mul_eq_zero] at this
    rcases this with h0 | h0
    · have hnum : q.num = 0 := by
        have hnn : 0 ≤ q.num := Rat.num_nonneg.mpr hq
        omega
      exact Rat.num_eq_zero.mp hnum
    · exact absurd h0 q.den_nz
  · exact absurd h hden

/-- A list of nonnegative rationals with zero sum is all zeros. -/
theorem list_sum_eq_zero (l : List ℚ) (h : ∀ x ∈ l, 0 ≤ x) (hs : l.sum = 0) :
    ∀ x ∈ l, x = 0 := by
  induction l with
  | nil => simp
  | cons a t ih =>
    have ha : 0 ≤ a := h a (List.mem_cons_self a t)
    have ht : 0 ≤ t.sum := List.sum_nonneg (fun x hx => h x (List.mem_cons_of_mem a hx))
    rw [List.sum_cons] at hs
    have ha0 : a = 0 := by linarith
    have hts : t.sum = 0 := by linarith
    intro x hx
    rcases List.mem_cons.mp hx with rfl | hx
    · exact ha0
    · exact ih (fun y hy => h y (List.mem_cons_of_mem a hy)) hts x hx

/-- Indexing a `(List.range n).map f` definition. -/
theorem rangeMap_getD {α : Type} (f : ℕ → α) (n i : ℕ) (d : α) :
    ((List.range n).map f).getD i d = if i < n then f i else d := by
  rcases Nat.lt_or_ge i n with hi | hi
  · rw [if_pos hi, List.getD_eq_getElem?_getD, List.getElem?_map, List.getElem?_range hi]
    rfl
  · rw [if_neg (by omega), List.getD_eq_getElem?_getD, List.getElem?_map,
      List.getElem?_eq_none (by simpa using hi)]
    rfl

/-- Folding JavaScript addition over finite values from a finite seed. -/
theorem foldl_jsAdd_fin (l : List JSNum) :
    (∀ x ∈ l, ∃ q : ℚ, x = .fin q) → ∀ acc : ℚ,
      ∃ q : ℚ, l.foldl jsAdd (.fin acc) = .fin q := by
  induction l with
  | nil => exact fun _ acc => ⟨acc, rfl⟩
  | cons a t ih =>
    intro h acc
    obtain ⟨qa, rfl⟩ := h a (List.mem_cons_self a t)
    rw [List.foldl_cons, jsAdd_fin]
    exact ih (fun x hx => h x (List.mem_cons_of_mem _ hx)) (acc + qa)

/-- The JavaScript sum of finite values is finite. -/
theorem jsSum_fin (l : List JSNum) (h : ∀ x ∈ l, ∃ q : ℚ, x = .fin q) :
    ∃ q : ℚ, jsSum l = .fin q := foldl_jsAdd_fin l h 0

/-- The JavaScript sum of an injected rational list is its rational sum. -/
theorem jsSum_map_fin (l : List ℚ) : jsSum (l.map .fin) = .fin l.sum := by
  suffices h : ∀ acc : ℚ, (l.map .fin).foldl jsAdd (.fin acc) = .fin (acc + l.sum) by
    simpa using h 0
  induction l with
  | nil => intro acc; simp [List.sum_nil]
  | cons a t ih =>
    intro acc
    rw [List.map_cons, List.foldl_cons, jsAdd_fin, ih, List.sum_cons]
    ring_nf

/-- The value of an `sma` entry over injected rationals: `null` during
warm-up or out of range, else the finite trailing mean. -/
theorem sma_getD (data : List ℚ) (p i : ℕ) (hp : 0 < p) :
    (Indicators.sma (data.map .fin) p).getD i none =
      if i < data.length ∧ ¬ i < p - 1 then
        some (.fin (((data.take (i + 1)).drop (i + 1 - p)).sum / ((p : ℕ) : ℚ)))
      else none := by
  have hlen : (data.map JSNum.fin).length = data.length := by simp
  rw [Indicators.sma, hlen, rangeMap_getD]
  by_cases hi : i < data.length
  · rw [if_pos hi]
    by_cases hip : i < p - 1
    · rw [if_pos hip, if_neg (by tauto)]
    · rw [if_neg hip, if_pos ⟨hi, hip⟩]
      have hslice : ((data.map JSNum.fin).take (i + 1)).drop (i + 1 - p) =
          ((data.take (i + 1)).drop (i + 1 - p)).map .fin := by
        rw [List.map_drop, List.map_take]
      rw [hslice, jsSum_map_fin, jsDiv_fin _ _ (by exact_mod_cast hp.ne')]
  · rw [if_neg hi, if_neg (by tauto)]

/-- The value of a `stdDev` entry over injected rationals: `null` during
warm-up or out of range, else the finite `ratSqrt` of the population
variance of the trailing window. -/
theorem stdDev_getD (data : List ℚ) (p i : ℕ) (hp : 0 < p) :
    (Indicators.stdDev (data.map .fin) p).getD i none =
      if i < data.length ∧ ¬ i < p - 1 then
        some (.fin (ratSqrt
          ((((data.take (i + 1)).drop (i + 1 - p)).map
            (fun q => (q - ((data.take (i + 1)).drop (i + 1 - p)).sum / ((p : ℕ) : ℚ)) *
              (q - ((data.take (i + 1)).drop (i + 1 - p)).sum / ((p : ℕ) : ℚ)))).sum /
            ((p : ℕ) : ℚ))))
      else none := by
  have hlen : (data.map JSNum.fin).length = data.length := by simp
  have hpq : ((p : ℕ) : ℚ) ≠ 0 := by exact_mod_cast hp.ne'
  rw [Indicators.stdDev, hlen, rangeMap_getD]
  by_cases hi : i < data.length
  · rw [if_pos hi]
    by_cases hip : i < p - 1
    · rw [if_pos hip, if_neg (by tauto)]
    · rw [if_neg hip, if_pos ⟨hi, hip⟩]
      have hslice : ((data.map JSNum.fin).take (i + 1)).drop (i + 1 - p) =
          ((data.take (i + 1)).drop (i + 1 - p)).map .fin := by
        rw [List.map_drop, List.map_take]
      dsimp only
      rw [hslice, jsSum_map_fin, jsDiv_fin _ _ hpq]
      have hmap : (((data.take (i + 1)).drop (i + 1 - p)).map .fin).map
          (fun x => jsMul
            (jsSub x (.fin (((data.take (i + 1)).drop (i + 1 - p)).sum / ((p : ℕ) : ℚ))))
            (jsSub x (.fin (((data.take (i + 1)).drop (i + 1 - p)).sum / ((p : ℕ) : ℚ))))) =
          (((data.take (i + 1)).drop (i + 1 - p)).map
            (fun q => (q - ((data.take (i + 1)).drop (i + 1 - p)).sum / ((p : ℕ) : ℚ)) *
              (q - ((data.take (i + 1)).drop (i + 1 - p)).sum / ((p : ℕ) : ℚ)))).map .fin := by
        rw [List.map_map, List.map_map]
        apply List.map_congr_left
        intro q _
        simp [Function.comp_apply, jsSub_fin, jsMul_fin]
      rw [hmap, jsSum_map_fin, jsDiv_fin _ _ hpq]
      have hvar : 0 ≤ (((data.take (i + 1)).drop (i + 1 - p)).map
          (fun q => (q - ((data.take (i + 1)).drop (i + 1 - p)).sum / ((p : ℕ) : ℚ)) *
            (q - ((data.take (i + 1)).drop (i + 1 - p)).sum / ((p : ℕ) : ℚ)))).sum /
          ((p : ℕ) : ℚ) := by
        apply div_nonneg _ (by positivity)
        apply List.sum_nonneg
        intro x hx
        obtain ⟨q, _, rfl⟩ := List.mem_map.mp hx
        exact mul_self_nonneg _
      rw [jsSqrt, if_neg (not_lt.mpr hvar)]
  · rw [if_neg hi, if_neg (by tauto)]

/-- Under positive closes, every Bollinger series entry is clean: the
mid/upper/lower bands and `widthPct` (whose denominator, the middle band, is
a mean of positive closes and hence nonzero) are `null` or finite, and
`percentB` is `null`, finite, or NaN — NaN exactly in the degenerate
zero-width case, where its numerator also vanishes, so no infinity can
arise. -/
theorem bollinger_clean (candles : List Candle) (j : ℕ)
    (hpos : ∀ c ∈ candles, 0 < c.close) :
    cleanField ((Indicators.calculateBollingerBands candles 20 2).middle.getD j none) ∧
    cleanField ((Indicators.calculateBollingerBands candles 20 2).upper.getD j none) ∧
    cleanField ((Indicators.calculateBollingerBands candles 20 2).lower.getD j none) ∧
    cleanField ((Indicators.calculateBollingerBands candles 20 2).widthPct.getD j none) ∧
    ((Indicators.calculateBollingerBands candles 20 2).percentB.getD j none = none ∨
     (Indicators.calculateBollingerBands candles 20 2).percentB.getD j none = some .nan ∨
     ∃ q, (Indicators.calculateBollingerBands candles 20 2).percentB.getD j none =
        some (.fin q)) := by
  have hcloses : candles.map (fun c => JSNum.fin c.close) =
      (candles.map Candle.close).map .fin := by
    simp [List.map_map, Function.comp_def]
  have hclen : (candles.map Candle.close).length = candles.length := by simp
  simp only [Indicators.calculateBollingerBands, hcloses, rangeMap_getD]
  by_cases hj : j < candles.length
  · simp only [if_pos hj]
    rw [sma_getD _ 20 j (by norm_num), stdDev_getD _ 20 j (by norm_num), hclen]
    by_cases hjp : j < 20 - 1
    · rw [if_neg (by tauto)]
      exact ⟨Or.inl rfl, Or.inl rfl, Or.inl rfl, Or.inl rfl, Or.inl rfl⟩
    · have hcond : j < candles.length ∧ ¬ j < 20 - 1 := ⟨hj, hjp⟩
      simp only [if_pos hcond]
      have hSlen : (((candles.map Candle.close).take (j + 1)).drop (j + 1 - 20)).length = 20 := by
        simp
        omega
      have hSpos : ∀ x ∈ ((candles.map Candle.close).take (j + 1)).drop (j + 1 - 20), 0 < x := by
        intro x hx
        have hx2 : x ∈ candles.map Candle.close :=
          List.mem_of_mem_take (List.mem_of_mem_drop hx)
        obtain ⟨c, hc, rfl⟩ := List.mem_map.mp hx2
        exact hpos c hc
      have hM : 0 < (((candles.map Candle.close).take (j + 1)).drop (j + 1 - 20)).sum /
          ((20 : ℕ) : ℚ) := by
        apply div_pos _ (by norm_num)
        apply List.sum_pos _ hSpos
        intro hnil
        rw [hnil] at hSlen
        simp at hSlen
      refine ⟨Or.inr ⟨_, rfl⟩, ?_, ?_, ?_, ?_⟩
      · rw [jsMul_fin, jsAdd_fin]
        exact Or.inr ⟨_, rfl⟩
      · rw [jsMul_fin, jsSub_fin]
        exact Or.inr ⟨_, rfl⟩
      · rw [jsMul_fin, jsAdd_fin, jsSub_fin, jsSub_fin, jsDiv_fin _ _ hM.ne', jsMul_fin]
        exact Or.inr ⟨_, rfl⟩
      · rw [List.get?_map]
        cases hcj : (candles.map Candle.close).get? j with
        | none => exact Or.inl rfl
        | some cj =>
          simp only [Option.map_some']
          rw [jsMul_fin, jsAdd_fin, jsSub_fin, jsSub_fin, jsSub_fin]
          by_cases hD : (((candles.map Candle.close).take (j + 1)).drop (j + 1 - 20)).sum /
                ((20 : ℕ) : ℚ) + 2 * ratSqrt
                ((((((candles.map Candle.close).take (j + 1)).drop (j + 1 - 20)).map
                  (fun q => (q - (((candles.map Candle.close).take (j + 1)).drop
                    (j + 1 - 20)).sum / ((20 : ℕ) : ℚ)) *
                    (q - (((candles.map Candle.close).take (j + 1)).drop
                      (j + 1 - 20)).sum / ((20 : ℕ) : ℚ)))).sum) / ((20 : ℕ) : ℚ)) -
              ((((candles.map Candle.close).take (j + 1)).drop (j + 1 - 20)).sum /
                ((20 : ℕ) : ℚ) - 2 * ratSqrt
                ((((((candles.map Candle.close).take (j + 1)).drop (j + 1 - 20)).map
                  (fun q => (q - (((candles.map Candle.close).take (j + 1)).drop
                    (j + 1 - 20)).sum / ((20 : ℕ) : ℚ)) *
                    (q - (((candles.map Candle.close).take (j + 1)).drop
                      (j + 1 - 20)).sum / ((20 : ℕ) : ℚ)))).sum) / ((20 : ℕ) : ℚ))) = 0
          · have hvar : 0 ≤ ((((((candles.map Candle.close).take (j + 1)).drop
                (j + 1 - 20)).map (fun q => (q - (((candles.map Candle.close).take
                  (j + 1)).drop (j + 1 - 20)).sum / ((20 : ℕ) : ℚ)) *
                  (q - (((candles.map Candle.close).take (j + 1)).drop
                    (j + 1 - 20)).sum / ((20 : ℕ) : ℚ)))).sum) / ((20 : ℕ) : ℚ)) := by
              apply div_nonneg _ (by positivity)
              apply List.sum_nonneg
              intro x hx
              obtain ⟨q, _, rfl⟩ := List.mem_map.mp hx
              exact mul_self_nonneg _
            have hSQ0 : ratSqrt ((((((candles.map Candle.close).take (j + 1)).drop
                (j + 1 - 20)).map (fun q => (q - (((candles.map Candle.close).take
                  (j + 1)).drop (j + 1 - 20)).sum / ((20 : ℕ) : ℚ)) *
                  (q - (((candles.map Candle.close).take (j + 1)).drop
                    (j + 1 - 20)).sum / ((20 : ℕ) : ℚ)))).sum) / ((20 : ℕ) : ℚ)) = 0 := by
              linarith
            have hV0 := ratSqrt_eq_zero _ hvar hSQ0
            have hsum0 : (((((candles.map Candle.close).take (j + 1)).drop
                (j + 1 - 20)).map (fun q => (q - (((candles.map Candle.close).take
                  (j + 1)).drop (j + 1 - 20)).sum / ((20 : ℕ) : ℚ)) *
                  (q - (((candles.map Candle.close).take (j + 1)).drop
                    (j + 1 - 20)).sum / ((20 : ℕ) : ℚ)))).sum) = 0 := by
              rcases div_eq_zero_iff.mp hV0 with h | h
              · exact h
              · norm_num at h
            have hcjS : cj ∈ ((candles.map Candle.close).take (j + 1)).drop (j + 1 - 20) := by
              apply List.get?_mem (n := 19)
              rw [List.get?_drop, show j + 1 - 20 + 19 = j by omega, List.get?_take (by omega)]
              exact hcj
            have hcjM : cj = (((candles.map Candle.close).take (j + 1)).drop
                (j + 1 - 20)).sum / ((20 : ℕ) : ℚ) := by
              have hz := list_sum_eq_zero _ (fun x hx => by
                obtain ⟨q, _, rfl⟩ := List.mem_map.mp hx
                exact mul_self_nonneg _) hsum0 _ (List.mem_map_of_mem _ hcjS)
              have := mul_self_eq_zero.mp hz
              linarith
            have hnum0 : cj - ((((candles.map Candle.close).take (j + 1)).drop
                (j + 1 - 20)).sum / ((20 : ℕ) : ℚ) - 2 * ratSqrt
                ((((((candles.map Candle.close).take (j + 1)).drop (j + 1 - 20)).map
                  (fun q => (q - (((candles.map Candle.close).take (j + 1)).drop
                    (j + 1 - 20)).sum / ((20 : ℕ) : ℚ)) *
                    (q - (((candles.map Candle.close).take (j + 1)).drop
                      (j + 1 - 20)).sum / ((20 : ℕ) : ℚ)))).sum) / ((20 : ℕ) : ℚ))) = 0 := by
              rw [hSQ0] at *
              linarith [hcjM]
            rw [jsDiv, hD, hnum0]
            simp
          · rw [jsDiv_fin _ _ hD]
            exact Or.inr (Or.inr ⟨_, rfl⟩)
  · simp only [if_neg hj]
    rw [sma_getD _ 20 j (by norm_num), hclen, if_neg (by tauto)]
    refine ⟨?_, ?_, ?_, ?_, ?_⟩ <;> simp [cleanField]

/-- Every true-range value is finite. -/
theorem trueRange_fin (candles : List Candle) :
    ∀ x ∈ Indicators.trueRange candles, ∃ q : ℚ, x = .fin q := by
  intro x hx
  rw [Indicators.trueRange] at hx
  obtain ⟨i, _, rfl⟩ := List.mem_map.mp hx
  rcases h1 : candles.get? i with _ | c
  · simp only [h1]
    exact ⟨_, rfl⟩
  · simp only [h1]
    by_cases h0 : i = 0
    · simp only [h0, if_pos rfl]
      exact ⟨_, rfl⟩
    · simp only [if_neg h0]
      rcases h2 : candles.get? (i - 1) with _ | p
      · simp only [h2]
        exact ⟨_, rfl⟩
      · simp only [h2]
        exact ⟨_, rfl⟩

/-- Over finite data and a positive period, every EMA array entry is
finite. -/
theorem emaGo_fin (data : List JSNum) (p : ℕ) (hd : ∀ x ∈ data, ∃ q : ℚ, x = .fin q)
    (hp : 0 < p) : ∀ n, ∀ y ∈ Indicators.emaGo data p n, ∃ q : ℚ, y = .fin q := by
  intro n
  induction n with
  | zero => intro y hy; simp [Indicators.emaGo] at hy
  | succ n ih =>
    intro y hy
    rw [Indicators.emaGo] at hy
    rcases h1 : data.get? n with _ | x
    · rw [h1] at hy
      exact ih y hy
    · rw [h1] at hy
      rcases List.mem_append.mp hy with hy | hy
      · exact ih y hy
      · rw [List.mem_singleton.mp hy]
        obtain ⟨qx, hqx⟩ := hd x (List.get?_mem h1)
        split_ifs with h0 hlt hpe
        · exact ⟨qx, hqx⟩
        · obtain ⟨qs, hqs⟩ := jsSum_fin _ (fun z hz => hd z (List.mem_of_mem_take hz))
          rw [hqs, jsDiv_fin _ _ (by exact_mod_cast (Nat.succ_ne_zero n))]
          exact ⟨_, rfl⟩
        · obtain ⟨qs, hqs⟩ := jsSum_fin _ (fun z hz => hd z (List.mem_of_mem_take hz))
          rw [hqs, jsDiv_fin _ _ (by exact_mod_cast hp.ne')]
          exact ⟨_, rfl⟩
        · rcases hL : (Indicators.emaGo data p n).getLast? with _ | prev
          · simp only [hL]
            exact ⟨qx, hqx⟩
          · have hmem : prev ∈ Indicators.emaGo data p n := by
              have hL2 := hL
              rw [List.getLast?_eq_get?] at hL2
              exact List.get?_mem hL2
            obtain ⟨qp, hqp⟩ := ih prev hmem
            simp only [hL]
            rw [hqx, hqp, jsSub_fin, jsMul_fin, jsAdd_fin]
            exact ⟨_, rfl⟩

/-- Every `atrPct` entry is `null` or finite (the close-is-zero case is
guarded to `null` by the code itself). -/
theorem atrPct_clean (candles : List Candle) (j : ℕ) :
    cleanField ((Indicators.calculateATR candles 14).atrPct.getD j none) := by
  simp only [Indicators.calculateATR, rangeMap_getD]
  by_cases hj : j < (Indicators.ema (Indicators.trueRange candles) 14).length
  · rw [if_pos hj]
    rcases h1 : (Indicators.ema (Indicators.trueRange candles) 14).get? j with _ | a
    · exact Or.inl rfl
    · rcases h2 : (candles.map (fun c => JSNum.fin c.close)).get? j with _ | cv
      · simp only [h2]
        exact Or.inl rfl
      · obtain ⟨qa, hqa⟩ :=
          emaGo_fin _ 14 (trueRange_fin candles) (by norm_num) _ a (List.get?_mem h1)
        obtain ⟨c, _, hcv⟩ := List.mem_map.mp (List.get?_mem h2)
        by_cases hz : cv = .fin 0
        · simp only [h2, if_pos hz]
          exact Or.inl rfl
        · simp only [h2, if_neg hz]
          have hq0 : c.close ≠ 0 := by
            intro h
            exact hz (by rw [← hcv, h])
          rw [hqa, ← hcv, jsDiv_fin _ _ hq0, jsMul_fin]
          exact Or.inr ⟨_, rfl⟩
  · rw [if_neg hj]
    exact Or.inl rfl

/-- Every percentile-rank entry is `null` or finite. -/
theorem percentileRank_clean (data : List (Option JSNum)) (lb j : ℕ) :
    cleanField ((Indicators.percentileRank data lb).getD j none) := by
  rw [Indicators.percentileRank, rangeMap_getD]
  by_cases hj : j < data.length
  · rw [if_pos hj, Indicators.prEntry]
    rcases h1 : data.get? j with _ | v
    · simp only [h1]
      exact Or.inl rfl
    · rcases v with _ | cur
      · simp only [h1]
        exact Or.inl rfl
      · simp only [h1]
        by_cases hg1 : j < lb - 1
        · simp only [if_pos hg1]
          exact Or.inl rfl
        · simp only [if_neg hg1]
          by_cases hg2 : (((data.take (j + 1)).drop (j + 1 - lb)).filterMap id).length < 2
          · simp only [if_pos hg2]
            exact Or.inl rfl
          · simp only [if_neg hg2]
            exact Or.inr ⟨_, rfl⟩
  · rw [if_neg hj]
    exact Or.inl rfl

/-- Every volume-ratio entry is `null` or finite (a zero average volume is
guarded to `null` by the code itself). -/
theorem volumeRatio_clean (candles : List Candle) (j : ℕ) :
    cleanField ((Indicators.volumeRatio candles 20).getD j none) := by
  have hvols : candles.map (fun c => JSNum.fin c.volume) =
      (candles.map Candle.volume).map .fin := by
    simp [List.map_map, Function.comp_def]
  simp only [Indicators.volumeRatio, hvols, rangeMap_getD]
  by_cases hj : j < ((candles.map Candle.volume).map JSNum.fin).length
  · rw [if_pos hj]
    rcases h1 : ((candles.map Candle.volume).map JSNum.fin).get? j with _ | vol
    · exact Or.inl rfl
    · simp only [h1]
      rw [sma_getD _ 20 j (by norm_num)]
      by_cases hc : j < (candles.map Candle.volume).length ∧ ¬ j < 20 - 1
      · rw [if_pos hc]
        by_cases hz : (((candles.map Candle.volume).take (j + 1)).drop (j + 1 - 20)).sum /
            ((20 : ℕ) : ℚ) = 0
        · have hfin : JSNum.fin ((((candles.map Candle.volume).take (j + 1)).drop
              (j + 1 - 20)).sum / ((20 : ℕ) : ℚ)) = .fin 0 := by
            rw [hz]
          simp only [if_pos hfin]
          exact Or.inl rfl
        · have hne : ¬ (JSNum.fin ((((candles.map Candle.volume).take (j + 1)).drop
              (j + 1 - 20)).sum / ((20 : ℕ) : ℚ)) = .fin 0) := by
            simpa using hz
          simp only [if_neg hne]
          obtain ⟨qv, hqv⟩ := List.mem_map.mp (List.get?_mem h1)
          rw [← hqv.2, jsDiv_fin _ _ hz]
          exact Or.inr ⟨_, rfl⟩
      · rw [if_neg hc]
        exact Or.inl rfl
  · rw [if_neg hj]
    exact Or.inl rfl

/-- `round` of a `null`, NaN or finite value is `null` or finite. -/
theorem round_clean (v : Option JSNum) (d : ℕ)
    (h : v = none ∨ v = some .nan ∨ ∃ q : ℚ, v = some (.fin q)) :
    cleanField (Indicators.round v d) := by
  have hpow : ((10 ^ d : ℕ) : ℚ) ≠ 0 := by positivity
  rcases h with rfl | rfl | ⟨q, rfl⟩
  · exact Or.inl rfl
  · exact Or.inl (by simp [Indicators.round])
  · right
    simp only [Indicators.round, if_neg (show ¬ (JSNum.fin q = JSNum.nan) by simp)]
    rw [jsMul_fin]
    rw [show jsRoundHalf (JSNum.fin (q * ((10 ^ d : ℕ) : ℚ))) =
      JSNum.fin ((⌊qAdd (q * ((10 ^ d : ℕ) : ℚ)) (Rat.divInt 1 2)⌋ : ℤ) : ℚ) from rfl]
    rw [jsDiv_fin _ _ hpow]
    exact ⟨_, rfl⟩

/-- A clean value stays clean through `round`. -/
theorem round_clean_of_cleanField (v : Option JSNum) (d : ℕ) (h : cleanField v) :
    cleanField (Indicators.round v d) := by
  apply round_clean
  rcases h with h | ⟨q, h⟩
  · exact Or.inl h
  · exact Or.inr (Or.inr ⟨q, h⟩)

/-- C9: on candles whose OHLCV fields are all strictly positive, the snapshot
holds no NaN and no infinity: every numeric field is `null` or finite.  Each
division is on a provably nonzero denominator (the Bollinger middle is a mean
of positive closes; the percentile denominator is at least 1; the EMA periods
are positive) or guarded by the code (zero average volume, zero close), and
the only NaN that can arise — `percentB` in the zero-width case, where the
numerator provably vanishes too, so no infinity is possible — is turned into
`null` by the `round` boundary. -/
theorem analyzeVolatility_no_nan_inf (candles : List Candle)
    (hpos : ∀ c ∈ candles, 0 < c.«open» ∧ 0 < c.high ∧ 0 < c.low ∧ 0 < c.close ∧
      0 < c.volume) :
    cleanSnapshot (Indicators.analyzeVolatility candles) := by
  have hclose : ∀ c ∈ candles, 0 < c.close := fun c hc => (hpos c hc).2.2.2.1
  by_cases hlen : candles.length < 20
  · have hins : Indicators.analyzeVolatility candles = Indicators.insufficientSnapshot := by
      simp [Indicators.analyzeVolatility, hlen]
    rw [hins]
    exact ⟨Or.inl rfl, Or.inl rfl, Or.inl rfl, Or.inl rfl, Or.inl rfl, Or.inl rfl,
      Or.inl rfl, Or.inl rfl, Or.inl rfl, Or.inl rfl⟩
  · rcases hg : candles.get? (candles.length - 1) with _ | current
    · rw [List.get?_eq_none] at hg
      omega
    · have hlen' : ¬ candles.length < max (max 20 14) 20 := by simpa using hlen
      simp only [Indicators.analyzeVolatility, if_neg hlen', hg]
      refine ⟨?_, ?_, ?_, ?_, ?_, ?_, ?_, ?_, ?_, ?_⟩
      · exact round_clean _ _ (Or.inr (Or.inr ⟨_, rfl⟩))
      · exact round_clean_of_cleanField _ _ ((bollinger_clean candles _ hclose).2.2.2.1)
      · exact round_clean_of_cleanField _ _ (percentileRank_clean _ _ _)
      · exact round_clean_of_cleanField _ _ (atrPct_clean candles _)
      · exact round_clean_of_cleanField _ _ (percentileRank_clean _ _ _)
      · exact round_clean_of_cleanField _ _ ((bollinger_clean candles _ hclose).2.1)
      · exact round_clean_of_cleanField _ _ ((bollinger_clean candles _ hclose).2.2.1)
      · exact round_clean_of_cleanField _ _ ((bollinger_clean candles _ hclose).1)
      · exact round_clean _ _ ((bollinger_clean candles _ hclose).2.2.2.2)
      · exact round_clean_of_cleanField _ _ (volumeRatio_clean candles _)

/-- Witness for C9: the snapshot of 25 positive flat candles (which passes
through the degenerate zero-width `percentB` case) is clean. -/
theorem analyzeVolatility_no_nan_inf_witness :
    (∀ c ∈ candles25, 0 < c.«open» ∧ 0 < c.high ∧ 0 < c.low ∧ 0 < c.close ∧
      0 < c.volume) ∧
    cleanSnapshot (Indicators.analyzeVolatility candles25) :=
  ⟨by decide, analyzeVolatility_no_nan_inf candles25 (by decide)⟩
